import Mathlib

/-!
Verification of the chaosmith-core workspace-indexing pipeline.

Go byte strings are modelled as `List Char` (one `Char` per byte, list
indices are Go byte offsets).  External collaborators keep their interfaces
but are abstracted into function parameters: the blake3 hash is a
`HashFn` parameter, the tiktoken tokenizer is an `Encoder` parameter, the
embedding executor's HTTP transport is a `respond` parameter, and the
SurrealDB client's success or failure is a boolean outcome.  float32
vector arithmetic is idealised as exact rational arithmetic.
-/

namespace Chaosmith

/-- Go byte strings, one `Char` per byte. -/
abbrev Bytes := List Char

/-! Part: Token-aware chunker (src/unnamed/part_010) -/

/-- Mirror of `const maxTokensPerChunk = 768`. -/
def maxTokensPerChunk : Nat := 768

/-- Mirror of the Go struct `tokenChunk`. -/
structure tokenChunk where
  Text : Bytes
  Start : Nat
  End : Nat
  TokenCount : Nat
deriving DecidableEq, Repr

/-- Modelled from the spec: the byte-pair-encoding tokenizer
(`github.com/pkoukk/tiktoken-go`, an external library, not code of this
repository) is represented by the byte string each produced token decodes
to.  `encode text` is `enc.Encode(text, nil, nil)` with every token
replaced by its byte string, and `enc.Decode(tokens)` is the concatenation
(`List.flatten`) of those byte strings. -/
abbrev Encoder := Bytes → List Bytes

/-- Fuel-indexed helper for `windows`. -/
def windowsAux {α : Type} (k : Nat) : Nat → List α → List (List α)
  | 0, _ => []
  | _ + 1, [] => []
  | fuel + 1, x :: xs => ((x :: xs).take k) :: windowsAux k fuel ((x :: xs).drop k)

/-- Consecutive windows of at most `k` elements, mirroring the loop
`for start := 0; start < len(tokens); start += maxTokensPerChunk`
(src/unnamed/part_010, line 51). -/
def windows {α : Type} (k : Nat) (xs : List α) : List (List α) :=
  windowsAux k xs.length xs

/-- Mirror of Go `strings.Index(hay, pat)` (byte offset of the first
occurrence of `pat` in `hay`, `none` for Go's `-1`). -/
def stringsIndex (pat : Bytes) : Bytes → Option Nat
  | [] => if pat.isEmpty then some 0 else none
  | c :: t =>
    if (c :: t).take pat.length = pat then some 0
    else (stringsIndex pat t).map (· + 1)

/-- Mirror of the realignment policy inside `tokenChunker.chunk`
(src/unnamed/part_010, lines 63-69): if the decoded chunk text does not
match the byte range at the cursor, search forward with `strings.Index`
and realign; `none` is the alignment failure. -/
def alignCursor (text chunkText : Bytes) (byteCursor : Nat) : Option Nat :=
  if (text.drop byteCursor).take chunkText.length = chunkText then some byteCursor
  else
    match stringsIndex chunkText (text.drop byteCursor) with
    | none => none
    | some idx => some (byteCursor + idx)

/-- Mirror of the byte-cursor loop of `tokenChunker.chunk`
(src/unnamed/part_010, lines 50-80).  Each window carries the byte strings
of its tokens, so `w.flatten` is `c.enc.Decode(chunkTokens)`; the `none`
result is the `token chunk alignment failed` error. -/
def chunkLoop (text : Bytes) : List (List Bytes) → Nat → Option (List tokenChunk)
  | [], _ => some []
  | w :: ws, byteCursor =>
    if w.flatten.isEmpty then chunkLoop text ws byteCursor
    else
      match alignCursor text w.flatten byteCursor with
      | none => none
      | some startPos =>
        match chunkLoop text ws (startPos + w.flatten.length) with
        | none => none
        | some rest =>
          some ({ Text := (text.drop startPos).take w.flatten.length,
                  Start := startPos, End := startPos + w.flatten.length,
                  TokenCount := w.length } :: rest)

/-- Mirror of `tokenChunker.chunk` (src/unnamed/part_010, lines 40-83),
parameterised by the tokenizer's encode function.  `some []` is the Go
`return nil, nil` for a text that encodes to zero tokens. -/
def chunk (encode : Encoder) (text : Bytes) : Option (List tokenChunk) :=
  let tokens := encode text
  if tokens.isEmpty then some []
  else chunkLoop text (windows maxTokensPerChunk tokens) 0

/-! Helpers: Window lemmas -/

theorem windowsAux_flatten {α : Type} (k : Nat) (hk : 0 < k) :
    ∀ (fuel : Nat) (xs : List α), xs.length ≤ fuel →
      (windowsAux k fuel xs).flatten = xs := by
  intro fuel
  induction fuel with
  | zero =>
    intro xs h
    have : xs = [] := List.length_eq_zero.mp (Nat.le_zero.mp h)
    subst this; rfl
  | succ fuel ih =>
    intro xs h
    cases xs with
    | nil => rfl
    | cons x t =>
      have hlen : ((x :: t).drop k).length ≤ fuel := by
        simp only [List.length_drop, List.length_cons] at *
        omega
      simp only [windowsAux, List.flatten_cons, ih _ hlen, List.take_append_drop]

theorem windows_flatten {α : Type} (k : Nat) (hk : 0 < k) (xs : List α) :
    (windows k xs).flatten = xs :=
  windowsAux_flatten k hk xs.length xs le_rfl

theorem windowsAux_mem {α : Type} (k : Nat) (hk : 0 < k) :
    ∀ (fuel : Nat) (xs : List α) (w : List α), w ∈ windowsAux k fuel xs →
      w.length ≤ k ∧ w ≠ [] ∧ ∀ a ∈ w, a ∈ xs := by
  intro fuel
  induction fuel with
  | zero => intro xs w hw; simp [windowsAux] at hw
  | succ fuel ih =>
    intro xs w hw
    cases xs with
    | nil => simp [windowsAux] at hw
    | cons x t =>
      simp only [windowsAux, List.mem_cons] at hw
      rcases hw with rfl | hw
      · refine ⟨by simpa using Nat.min_le_left k (t.length + 1), ?_, ?_⟩
        · cases k with
          | zero => omega
          | succ k => simp
        · intro a ha; exact List.mem_of_mem_take ha
      · obtain ⟨h1, h2, h3⟩ := ih _ _ hw
        exact ⟨h1, h2, fun a ha => List.mem_of_mem_drop (h3 a ha)⟩

theorem windows_mem {α : Type} (k : Nat) (hk : 0 < k) (xs : List α) (w : List α)
    (hw : w ∈ windows k xs) : w.length ≤ k ∧ w ≠ [] ∧ ∀ a ∈ w, a ∈ xs :=
  windowsAux_mem k hk xs.length xs w hw

/-! Helpers: Chunk-loop lemmas -/

theorem stringsIndex_sound (pat : Bytes) :
    ∀ (hay : Bytes) (i : Nat), stringsIndex pat hay = some i →
      (hay.drop i).take pat.length = pat := by
  intro hay
  induction hay with
  | nil =>
    intro i h
    simp only [stringsIndex] at h
    split at h
    · cases h
      simp_all [List.isEmpty_iff]
    · cases h
  | cons c t ih =>
    intro i h
    simp only [stringsIndex] at h
    split at h
    · cases h
      simpa using ‹(c :: t).take pat.length = pat›
    · rcases Option.map_eq_some'.mp h with ⟨j, hj, rfl⟩
      simpa using ih j hj

theorem chunkLoop_cons_aligned (text : Bytes) (w : List Bytes) (ws : List (List Bytes))
    (n : Nat) (h1 : ¬w.flatten.isEmpty = true)
    (h2 : (text.drop n).take w.flatten.length = w.flatten)
    (cs : List tokenChunk) (hcs : chunkLoop text ws (n + w.flatten.length) = some cs) :
    chunkLoop text (w :: ws) n =
      some ({ Text := (text.drop n).take w.flatten.length,
              Start := n, End := n + w.flatten.length,
              TokenCount := w.length } :: cs) := by
  simp only [chunkLoop, if_neg h1, alignCursor, if_pos h2, hcs]

theorem chunkLoop_spec (text : Bytes) :
    ∀ (ws : List (List Bytes)) (n : Nat),
      (ws.map List.flatten).flatten = text.drop n →
      n ≤ text.length →
      (∀ w ∈ ws, w.flatten ≠ []) →
      ∃ cs, chunkLoop text ws n = some cs ∧
        (cs.map tokenChunk.Text).flatten = text.drop n ∧
        (∀ c ∈ cs, ∃ w ∈ ws, c.TokenCount = w.length) ∧
        List.Chain' (fun a b => a.End = b.Start) cs ∧
        (∀ c ∈ cs.head?, c.Start = n) ∧
        (∀ c ∈ cs.getLast?, c.End = text.length) := by
  intro ws
  induction ws with
  | nil =>
    intro n hjoin _ _
    refine ⟨[], rfl, ?_, by simp, by simp, by simp, by simp⟩
    simpa using hjoin.symm
  | cons w ws ih =>
    intro n hjoin hn hne
    have hw : w.flatten ≠ [] := hne w (by simp)
    have hsplit : text.drop n = w.flatten ++ (ws.map List.flatten).flatten := by
      simpa using hjoin.symm
    have hslice : (text.drop n).take w.flatten.length = w.flatten := by
      rw [hsplit]
      simpa using @List.take_append Char w.flatten ((ws.map List.flatten).flatten) 0
    have hlenle : n + w.flatten.length ≤ text.length := by
      have := congrArg List.length hsplit
      simp only [List.length_drop, List.length_append] at this
      omega
    have hdropnext : text.drop (n + w.flatten.length) = (ws.map List.flatten).flatten := by
      have h0 : (text.drop n).drop w.flatten.length = (ws.map List.flatten).flatten := by
        rw [hsplit]; simp
      rwa [List.drop_drop] at h0
    obtain ⟨cs, hcs, hflat, htok, hchain, hhead, hlast⟩ :=
      ih (n + w.flatten.length) (by rw [hdropnext]) hlenle
        (fun w' hw' => hne w' (by simp [hw']))
    have hwb : ¬w.flatten.isEmpty = true := by
      simpa [List.isEmpty_iff] using hw
    refine ⟨{ Text := (text.drop n).take w.flatten.length,
              Start := n, End := n + w.flatten.length,
              TokenCount := w.length } :: cs,
            chunkLoop_cons_aligned text w ws n hwb hslice cs hcs, ?_, ?_, ?_, ?_, ?_⟩
    · simp only [List.map_cons, List.flatten_cons, hflat, hslice, hdropnext]
      exact hsplit.symm
    · intro c hc
      rcases List.mem_cons.mp hc with rfl | hc
      · exact ⟨w, by simp⟩
      · obtain ⟨w', hw', h⟩ := htok c hc
        exact ⟨w', by simp [hw'], h⟩
    · rw [List.chain'_cons']
      refine ⟨fun y hy => ?_, hchain⟩
      exact (hhead y hy).symm
    · simp
    · cases cs with
      | nil =>
        intro c hc
        simp only [List.getLast?_singleton, Option.mem_def, Option.some.injEq] at hc
        subst hc
        have hrest : text.drop (n + w.flatten.length) = [] := by
          rw [← hflat]; rfl
        have hge : text.length ≤ n + w.flatten.length := List.drop_eq_nil_iff.mp hrest
        have : n + w.flatten.length = text.length := Nat.le_antisymm hlenle hge
        simpa using this
      | cons c' cs' =>
        intro c hc
        rw [List.getLast?_cons_cons] at hc
        exact hlast c hc

theorem alignCursor_sound (text chunkText : Bytes) (byteCursor startPos : Nat)
    (h : alignCursor text chunkText byteCursor = some startPos) :
    (text.drop startPos).take chunkText.length = chunkText := by
  unfold alignCursor at h
  split at h
  · rename_i hmatch
    cases h
    exact hmatch
  · split at h
    · cases h
    · rename_i idx hidx
      cases h
      have := stringsIndex_sound chunkText (text.drop byteCursor) idx hidx
      rwa [List.drop_drop] at this

theorem chunkLoop_sound (text : Bytes) :
    ∀ (ws : List (List Bytes)) (n : Nat) (cs : List tokenChunk),
      chunkLoop text ws n = some cs →
      ∀ c ∈ cs, c.Text ≠ [] ∧ c.Start < c.End ∧ ∃ w ∈ ws, c.TokenCount = w.length := by
  intro ws
  induction ws with
  | nil =>
    intro n cs h c hc
    simp only [chunkLoop, Option.some.injEq] at h
    subst h
    cases hc
  | cons w ws ih =>
    intro n cs h c hc
    by_cases hemp : w.flatten.isEmpty = true
    · rw [chunkLoop, if_pos hemp] at h
      obtain ⟨h1, h2, w', hw', h3⟩ := ih n cs h c hc
      exact ⟨h1, h2, w', by simp [hw'], h3⟩
    · have hlen : 0 < w.flatten.length := by
        have hx : w.flatten ≠ [] := by simpa [List.isEmpty_iff] using hemp
        exact List.length_pos.mpr hx
      rw [chunkLoop, if_neg hemp] at h
      revert h
      cases halign : alignCursor text w.flatten n with
      | none => intro h; cases h
      | some startPos =>
        cases hrec : chunkLoop text ws (startPos + w.flatten.length) with
        | none =>
          intro h
          have h1 : (match chunkLoop text ws (startPos + w.flatten.length) with
              | none => (none : Option (List tokenChunk))
              | some rest =>
                some (tokenChunk.mk ((text.drop startPos).take w.flatten.length)
                        startPos (startPos + w.flatten.length) w.length :: rest)) = some cs := h
          rw [hrec] at h1
          exact Option.noConfusion h1
        | some rest =>
          intro h
          have h1 : (match chunkLoop text ws (startPos + w.flatten.length) with
              | none => (none : Option (List tokenChunk))
              | some rest =>
                some (tokenChunk.mk ((text.drop startPos).take w.flatten.length)
                        startPos (startPos + w.flatten.length) w.length :: rest)) = some cs := h
          rw [hrec] at h1
          have h2 : (tokenChunk.mk ((text.drop startPos).take w.flatten.length)
              startPos (startPos + w.flatten.length) w.length :: rest) = cs :=
            Option.some.inj h1
          subst h2
          have hslice : (text.drop startPos).take w.flatten.length = w.flatten :=
            alignCursor_sound text w.flatten n startPos halign
          rcases List.mem_cons.mp hc with rfl | hc
          · refine ⟨?_, Nat.lt_add_of_pos_right hlen, w, by simp⟩
            simp only [hslice]
            exact fun hcon => by simp [hcon] at hlen
          · obtain ⟨h1, h2, w', hw', h3⟩ :=
              ih (startPos + w.flatten.length) rest hrec c hc
            exact ⟨h1, h2, w', by simp [hw'], h3⟩

/-- Core specification of `chunk` under the byte-pair-encoding tokenizer
model: when encoding losslessly partitions the text into non-empty token
byte strings, chunking succeeds and the chunks tile the text exactly. -/
theorem chunk_spec (encode : Encoder) (text : Bytes)
    (hjoin : (encode text).flatten = text)
    (hne : ∀ tok ∈ encode text, tok ≠ []) :
    ∃ cs, chunk encode text = some cs ∧
      (cs.map tokenChunk.Text).flatten = text ∧
      (∀ c ∈ cs, c.TokenCount ≤ maxTokensPerChunk) ∧
      List.Chain' (fun a b => a.End = b.Start) cs ∧
      (∀ c ∈ cs.head?, c.Start = 0) ∧
      (∀ c ∈ cs.getLast?, c.End = text.length) ∧
      (cs = [] → text = []) := by
  by_cases hz : (encode text).isEmpty
  · have henc : encode text = [] := by simpa [List.isEmpty_iff] using hz
    have htext : text = [] := by rw [← hjoin, henc]; rfl
    refine ⟨[], ?_, by simp [htext], by simp, by simp, by simp, by simp, fun _ => htext⟩
    simp [chunk, hz]
  · have hk : 0 < maxTokensPerChunk := by decide
    have hmapflat : ∀ (l : List (List (List Char))),
        (l.map List.flatten).flatten = l.flatten.flatten := by
      intro l
      induction l with
      | nil => rfl
      | cons x t iht => simp [iht]
    have hwin : ((windows maxTokensPerChunk (encode text)).map List.flatten).flatten
        = text.drop 0 := by
      rw [List.drop_zero, hmapflat, windows_flatten _ hk, hjoin]
    have hwne : ∀ w ∈ windows maxTokensPerChunk (encode text), w.flatten ≠ [] := by
      intro w hw
      obtain ⟨-, hwnil, hmem⟩ := windows_mem _ hk _ w hw
      cases w with
      | nil => exact absurd rfl hwnil
      | cons a t =>
        have ha : a ≠ [] := hne a (hmem a (by simp))
        simp only [List.flatten_cons]
        intro hcon
        exact ha (List.append_eq_nil.mp hcon).1
    obtain ⟨cs, hcs, hflat, htok, hchain, hhead, hlast⟩ :=
      chunkLoop_spec text (windows maxTokensPerChunk (encode text)) 0 hwin
        (Nat.zero_le _) hwne
    refine ⟨cs, ?_, by simpa using hflat, ?_, hchain, hhead, hlast, ?_⟩
    · simp [chunk, hz, hcs]
    · intro c hc
      obtain ⟨w, hw, hcnt⟩ := htok c hc
      obtain ⟨hwlen, -, -⟩ := windows_mem _ hk _ w hw
      omega
    · intro hnil
      subst hnil
      have : text.drop 0 = [] := by simpa using hflat.symm
      simpa using this

/-- C1: for every input text on which `tokenChunker.chunk` returns without
error, the chunks concatenate to the input exactly, every chunk has at most
`maxTokensPerChunk` (768) tokens, adjacent chunks satisfy
`chunk[i].End = chunk[i+1].Start`, the first chunk starts at byte 0 and
the last chunk ends at the byte length of the text.  The tokenizer is the
external BPE tokenizer, modelled by its two defining properties: decoding
the full encoding reproduces the text, and every token decodes to a
non-empty byte string. -/
theorem chunk_lossless (encode : Encoder) (text : Bytes)
    (hjoin : (encode text).flatten = text)
    (hne : ∀ tok ∈ encode text, tok ≠ []) :
    ∃ cs, chunk encode text = some cs ∧
      (cs.map tokenChunk.Text).flatten = text ∧
      (∀ c ∈ cs, c.TokenCount ≤ maxTokensPerChunk) ∧
      List.Chain' (fun a b => a.End = b.Start) cs ∧
      (∀ c ∈ cs.head?, c.Start = 0) ∧
      (∀ c ∈ cs.getLast?, c.End = text.length) := by
  obtain ⟨cs, h1, h2, h3, h4, h5, h6, -⟩ := chunk_spec encode text hjoin hne
  exact ⟨cs, h1, h2, h3, h4, h5, h6⟩

/-- Concrete single-byte tokenizer used to instantiate the tokenizer model
in witnesses. -/
def charEncoder : Encoder := fun text => text.map (fun c => [c])

/-- Witness for C1 at a concrete two-byte text under the single-byte
tokenizer. -/
theorem chunk_lossless_witness :
    ∃ cs, chunk charEncoder ['a', 'b'] = some cs ∧
      (cs.map tokenChunk.Text).flatten = ['a', 'b'] ∧
      (∀ c ∈ cs, c.TokenCount ≤ maxTokensPerChunk) ∧
      List.Chain' (fun a b => a.End = b.Start) cs ∧
      (∀ c ∈ cs.head?, c.Start = 0) ∧
      (∀ c ∈ cs.getLast?, c.End = (['a', 'b'] : Bytes).length) :=
  chunk_lossless charEncoder ['a', 'b'] (by decide) (by decide)

/-- C10: `tokenChunker.chunk` never returns a chunk with empty text or a
zero token count: a text encoding to zero tokens yields an empty chunk
list without error, and every returned chunk has non-empty text, at least
one token, and `End` strictly greater than `Start`.  This holds for an
arbitrary tokenizer. -/
theorem chunk_chunks_nonempty (encode : Encoder) (text : Bytes) :
    (encode text = [] → chunk encode text = some []) ∧
    ∀ cs, chunk encode text = some cs →
      ∀ c ∈ cs, c.Text ≠ [] ∧ 1 ≤ c.TokenCount ∧ c.Start < c.End := by
  constructor
  · intro h
    simp [chunk, h]
  · intro cs hcs c hc
    by_cases hz : (encode text).isEmpty
    · simp only [chunk, if_pos hz, Option.some.injEq] at hcs
      subst hcs
      cases hc
    · simp only [chunk, if_neg hz] at hcs
      obtain ⟨h1, h2, w, hw, h3⟩ := chunkLoop_sound text _ 0 cs hcs c hc
      have hk : 0 < maxTokensPerChunk := by decide
      obtain ⟨-, hwnil, -⟩ := windows_mem _ hk _ w hw
      have : 0 < w.length := List.length_pos.mpr hwnil
      exact ⟨h1, by omega, h2⟩

/-- Witness for C10 at a concrete one-byte text under the single-byte
tokenizer. -/
theorem chunk_chunks_nonempty_witness :
    ∀ c ∈ [tokenChunk.mk ['a'] 0 1 1],
      c.Text ≠ [] ∧ 1 ≤ c.TokenCount ∧ c.Start < c.End :=
  (chunk_chunks_nonempty charEncoder ['a']).2 [tokenChunk.mk ['a'] 0 1 1] (by decide)

/-! Part: Hashing and hex encoding

The blake3 hash lives in the external `github.com/zeebo/blake3` library, so
it is a parameter of the model: a function from byte strings to digests
(byte lists; `blake3.Sum256` returns 32 bytes, which enters the theorems as
a hypothesis on the parameter). -/

/-- Digests are byte lists. -/
abbrev Digest := List (Fin 256)

/-- Abstract 256-bit hash function standing for `blake3.Sum256`. -/
abbrev HashFn := Bytes → Digest

/-- Lower-case hexadecimal digit for a value below 16. -/
def hexDigitChar (n : Nat) : Char :=
  if n < 10 then Char.ofNat (48 + n) else Char.ofNat (87 + n)

/-- Hex encoding of one byte, most significant nibble first. -/
def hexEncodeByte (b : Fin 256) : Bytes :=
  [hexDigitChar (b.val / 16), hexDigitChar (b.val % 16)]

/-- Mirror of Go `hex.EncodeToString`. -/
def hexEncodeToString (d : Digest) : Bytes := (d.map hexEncodeByte).flatten

/-- The sixteen lower-case hex digits. -/
def hexAlphabet : Bytes := (List.range 16).map hexDigitChar

theorem hexDigitChar_inj : ∀ m, m < 16 → ∀ n, n < 16 → hexDigitChar m = hexDigitChar n → m = n := by
  decide

theorem hexDigitChar_mem_alphabet : ∀ n, n < 16 → hexDigitChar n ∈ hexAlphabet := by
  decide

theorem hexEncodeByte_inj (b₁ b₂ : Fin 256) (h : hexEncodeByte b₁ = hexEncodeByte b₂) :
    b₁ = b₂ := by
  simp only [hexEncodeByte, List.cons.injEq, and_true] at h
  obtain ⟨h1, h2⟩ := h
  have hb₁ := b₁.isLt
  have hb₂ := b₂.isLt
  have hq : b₁.val / 16 = b₂.val / 16 := hexDigitChar_inj _ (by omega) _ (by omega) h1
  have hr : b₁.val % 16 = b₂.val % 16 := hexDigitChar_inj _ (by omega) _ (by omega) h2
  exact Fin.ext (by omega)

theorem hexEncodeToString_inj :
    ∀ d₁ d₂ : Digest, hexEncodeToString d₁ = hexEncodeToString d₂ → d₁ = d₂ := by
  intro d₁
  induction d₁ with
  | nil =>
    intro d₂ h
    cases d₂ with
    | nil => rfl
    | cons b t => simp [hexEncodeToString, hexEncodeByte] at h
  | cons b₁ t₁ ih =>
    intro d₂ h
    cases d₂ with
    | nil => simp [hexEncodeToString, hexEncodeByte] at h
    | cons b₂ t₂ =>
      simp only [hexEncodeToString, List.map_cons, List.flatten_cons, hexEncodeByte,
        List.cons_append, List.nil_append, List.cons.injEq] at h
      obtain ⟨h1, h2, h3⟩ := h
      have hb : b₁ = b₂ := hexEncodeByte_inj b₁ b₂ (by simp [hexEncodeByte, h1, h2])
      have ht : t₁ = t₂ := ih t₂ (by simpa [hexEncodeToString] using h3)
      rw [hb, ht]

theorem hexEncodeToString_length (d : Digest) :
    (hexEncodeToString d).length = 2 * d.length := by
  induction d with
  | nil => rfl
  | cons b t ih =>
    have hstep : hexEncodeToString (b :: t) = hexEncodeByte b ++ hexEncodeToString t := rfl
    rw [hstep, List.length_append, ih]
    simp only [hexEncodeByte, List.length_cons, List.length_nil, List.length_cons]
    omega

theorem hexEncodeToString_mem (d : Digest) : ∀ c ∈ hexEncodeToString d, c ∈ hexAlphabet := by
  intro c hc
  simp only [hexEncodeToString, List.mem_flatten, List.mem_map] at hc
  obtain ⟨l, ⟨b, -, rfl⟩, hcl⟩ := hc
  have hq : b.val / 16 < 16 := by have := b.isLt; omega
  have hr : b.val % 16 < 16 := by omega
  simp only [hexEncodeByte, List.mem_cons, List.not_mem_nil, or_false] at hcl
  rcases hcl with rfl | rfl
  · exact hexDigitChar_mem_alphabet _ hq
  · exact hexDigitChar_mem_alphabet _ hr

/-! Part: Run identifiers (src/internal/runctx/run.go) -/

/-- Observations of a non-zero Go `time.Time` used by `GenerateRunID`:
`rfcUTC` is `t.UTC().Format(time.RFC3339Nano)` and `dateUTC` is
`t.UTC().Format("20060102")`.  The `started.IsZero()` branch substitutes
`time.Now().UTC()` first and is outside the model, which covers the
non-zero instants the claims quantify over. -/
structure GoTime where
  rfcUTC : Bytes
  dateUTC : Bytes
deriving DecidableEq, Repr

/-- Mirror of `strings.Join([]string{workspaceID, step, started.Format(RFC3339Nano)}, "|")`
(src/internal/runctx/run.go, lines 59-63). -/
def runIDInput (workspaceID step : Bytes) (started : GoTime) : Bytes :=
  workspaceID ++ '|' :: (step ++ '|' :: started.rfcUTC)

/-- Mirror of `GenerateRunID` (src/internal/runctx/run.go, lines 54-66):
`fmt.Sprintf("RUN-%s-%x", date, sum[:4])`. -/
def GenerateRunID (blake3 : HashFn) (workspaceID step : Bytes) (started : GoTime) : Bytes :=
  ['R', 'U', 'N', '-'] ++ started.dateUTC ++
    '-' :: hexEncodeToString ((blake3 (runIDInput workspaceID step started)).take 4)

/-- C3: `GenerateRunID` is deterministic in (workspace, step, time); the
hash inputs for two distinct steps always differ, so whenever the
truncated digests of those two distinct inputs differ (which is how the
32-bit-truncated blake3 digest separates them) the two run ids differ; and
every id has the shape `RUN-<UTC date of t>-<8 hex digits>`. -/
theorem generateRunID_spec (blake3 : HashFn) (ws s₁ s₂ : Bytes) (t : GoTime)
    (hlen : ∀ x, (blake3 x).length = 32) :
    GenerateRunID blake3 ws s₁ t = GenerateRunID blake3 ws s₁ t ∧
    (s₁ ≠ s₂ → runIDInput ws s₁ t ≠ runIDInput ws s₂ t) ∧
    ((blake3 (runIDInput ws s₁ t)).take 4 ≠ (blake3 (runIDInput ws s₂ t)).take 4 →
      GenerateRunID blake3 ws s₁ t ≠ GenerateRunID blake3 ws s₂ t) ∧
    GenerateRunID blake3 ws s₁ t =
      ['R', 'U', 'N', '-'] ++ t.dateUTC ++
        '-' :: hexEncodeToString ((blake3 (runIDInput ws s₁ t)).take 4) ∧
    (hexEncodeToString ((blake3 (runIDInput ws s₁ t)).take 4)).length = 8 ∧
    (∀ c ∈ hexEncodeToString ((blake3 (runIDInput ws s₁ t)).take 4), c ∈ hexAlphabet) := by
  refine ⟨rfl, ?_, ?_, rfl, ?_, hexEncodeToString_mem _⟩
  · intro hne heq
    unfold runIDInput at heq
    have h1 := List.append_cancel_left heq
    rw [List.cons.injEq] at h1
    exact hne (List.append_cancel_right h1.2)
  · intro hdig heq
    unfold GenerateRunID at heq
    have h1 : '-' :: hexEncodeToString ((blake3 (runIDInput ws s₁ t)).take 4)
        = '-' :: hexEncodeToString ((blake3 (runIDInput ws s₂ t)).take 4) :=
      List.append_cancel_left heq
    rw [List.cons.injEq] at h1
    exact hdig (hexEncodeToString_inj _ _ h1.2)
  · rw [hexEncodeToString_length, List.length_take, hlen]
    decide

/-- Concrete 32-byte hash used to instantiate the hash model in witnesses. -/
def blakeW : HashFn := fun s => (List.range 32).map (fun i => Fin.ofNat (s.length + i))

/-- Concrete non-zero timestamp used in witnesses. -/
def timeW : GoTime := { rfcUTC := ['T'], dateUTC := ['D'] }

/-- Witness for C3 at a concrete hash, workspace, step pair and time. -/
theorem generateRunID_spec_witness :
    (hexEncodeToString
      ((blakeW (runIDInput ['w'] ['s', 'c', 'a', 'n'] timeW)).take 4)).length = 8 :=
  (generateRunID_spec blakeW ['w'] ['s', 'c', 'a', 'n'] ['e', 'm', 'b', 'e', 'd'] timeW
    (fun x => by simp [blakeW])).2.2.2.2.1

/-! Part: Content-addressed identifiers (src/internal/indexer/helpers.go) -/

/-- ASCII white-space test standing for Go `unicode.IsSpace` (the
identifiers hashed by `hexID` are ASCII strings). -/
def goIsSpace (c : Char) : Bool :=
  c == ' ' || c == '\t' || c == '\n' || c == '\r' || c == Char.ofNat 11 || c == Char.ofNat 12

/-- Mirror of Go `strings.TrimSpace` on ASCII byte strings. -/
def goTrimSpace (s : Bytes) : Bytes :=
  ((s.dropWhile goIsSpace).reverse.dropWhile goIsSpace).reverse

/-- Mirror of Go `strings.ToLower` on one ASCII byte. -/
def goToLower (c : Char) : Char := c.toLower

/-- Mirror of the part-joining loop of `hexID` (helpers.go, lines 37-43):
each part is trimmed and lower-cased, then the parts are joined by the
separator byte. -/
def hexIDInput (parts : List Bytes) : Bytes :=
  List.intercalate ['|'] (parts.map (fun p => (goTrimSpace p).map goToLower))

/-- Mirror of `hexID` (helpers.go, lines 36-46): a human-readable tag, a
dash, and the hex encoding of the first ten digest bytes. -/
def hexID (blake3 : HashFn) (tag : Bytes) (parts : List Bytes) : Bytes :=
  tag ++ '-' :: hexEncodeToString ((blake3 (hexIDInput parts)).take 10)

/-- Mirror of `fileID` (helpers.go, lines 24-26). -/
def fileID (blake3 : HashFn) (workspaceID relpath : Bytes) : Bytes :=
  hexID blake3 ['f', 'i', 'l', 'e'] [workspaceID, relpath]

/-- Mirror of `dirID` (helpers.go, lines 28-30). -/
def dirID (blake3 : HashFn) (workspaceID relpath : Bytes) : Bytes :=
  hexID blake3 ['d', 'i', 'r'] [workspaceID, relpath]

/-- Mirror of `parentDirRel` (the scan source, lines 252-264), restricted
to the clean, slash-normalised, relative paths produced by
`normalizeRelPath`: `filepath.Dir` keeps everything before the final
slash, and its `"."` result for single-component paths maps to the empty
relpath. -/
def parentDirRel (rel : Bytes) : Bytes :=
  if rel = [] then []
  else if (rel.splitOn '/').length ≤ 1 then []
  else List.intercalate ['/'] (rel.splitOn '/').dropLast

/-! Part: Workspace scanner records (the SDK-based performScan,
src/internal/indexer/token_chunker_test.go, first file, lines 81-205) -/

/-- Mirror of the Go struct `dirMeta`; `ModTime` is an abstract clock
reading. -/
structure dirMeta where
  RelPath : Bytes
  Hash : Bytes
  ModTime : Int
deriving DecidableEq, Repr

/-- Mirror of the Go struct `fileMeta`. -/
structure fileMeta where
  RelPath : Bytes
  Size : Int
  MTime : Int
  Hash : Bytes
  Lang : Bytes
deriving DecidableEq, Repr

/-- One directed containment edge created by `surreal.Relate`. -/
structure Edge where
  fromTable : String
  fromID : Bytes
  label : String
  toTable : String
  toID : Bytes
deriving DecidableEq, Repr

/-- Containment edges recorded for one directory in performScan
(lines 158-166): workspace→directory always, and parent→directory unless
the directory is the workspace root itself. -/
def dirEdgesOfRel (blake3 : HashFn) (wsID rel : Bytes) : List Edge :=
  { fromTable := "workspace", fromID := wsID, label := "ws_contains_dir",
    toTable := "directory", toID := dirID blake3 wsID rel } ::
  (if parentDirRel rel ≠ [] ∨ rel ≠ [] then
    [{ fromTable := "directory", fromID := dirID blake3 wsID (parentDirRel rel),
       label := "dir_contains_dir", toTable := "directory", toID := dirID blake3 wsID rel }]
   else [])

/-- Containment edge recorded for one file in performScan (lines 182-186). -/
def fileEdgesOfRel (blake3 : HashFn) (wsID rel : Bytes) : List Edge :=
  [{ fromTable := "directory", fromID := dirID blake3 wsID (parentDirRel rel),
     label := "dir_contains_file", toTable := "file", toID := fileID blake3 wsID rel }]

/-- Storage keys targeted by performScan's `UpsertRecord` calls, in order
(directories at lines 150-156, files at lines 171-180). -/
def scanUpsertIDs (blake3 : HashFn) (wsID : Bytes)
    (dirs : List dirMeta) (files : List fileMeta) : List Bytes :=
  dirs.map (fun d => dirID blake3 wsID d.RelPath) ++
    files.map (fun f => fileID blake3 wsID f.RelPath)

/-- Containment edges established by performScan's `Relate` calls, in
order. -/
def scanEdges (blake3 : HashFn) (wsID : Bytes)
    (dirs : List dirMeta) (files : List fileMeta) : List Edge :=
  (dirs.map (fun d => dirEdgesOfRel blake3 wsID d.RelPath)).flatten ++
    (files.map (fun f => fileEdgesOfRel blake3 wsID f.RelPath)).flatten

theorem map_eq_of_proj {α β γ : Type} (p : α → β) (g : β → γ) (l₁ l₂ : List α)
    (h : l₁.map p = l₂.map p) :
    l₁.map (fun a => g (p a)) = l₂.map (fun a => g (p a)) := by
  have hc := congrArg (List.map g) h
  rwa [List.map_map, List.map_map] at hc

/-- C4: the storage keys and containment edges produced by a scan are
functions of the workspace id and the relpaths alone — hashes, sizes,
modification times and languages do not enter them — so two scans of the
same unchanged tree (and in particular an immediate re-scan) target
identical key lists and identical edge lists, making the second run a
data-level no-op of idempotent upserts and relates. -/
theorem scan_ids_deterministic (blake3 : HashFn) (wsID : Bytes)
    (dirs₁ dirs₂ : List dirMeta) (files₁ files₂ : List fileMeta)
    (hd : dirs₁.map dirMeta.RelPath = dirs₂.map dirMeta.RelPath)
    (hf : files₁.map fileMeta.RelPath = files₂.map fileMeta.RelPath) :
    scanUpsertIDs blake3 wsID dirs₁ files₁ = scanUpsertIDs blake3 wsID dirs₂ files₂ ∧
    scanEdges blake3 wsID dirs₁ files₁ = scanEdges blake3 wsID dirs₂ files₂ := by
  constructor
  · unfold scanUpsertIDs
    rw [map_eq_of_proj dirMeta.RelPath (dirID blake3 wsID) dirs₁ dirs₂ hd,
      map_eq_of_proj fileMeta.RelPath (fileID blake3 wsID) files₁ files₂ hf]
  · unfold scanEdges
    rw [map_eq_of_proj dirMeta.RelPath (dirEdgesOfRel blake3 wsID) dirs₁ dirs₂ hd,
      map_eq_of_proj fileMeta.RelPath (fileEdgesOfRel blake3 wsID) files₁ files₂ hf]

/-- Witness for C4: two scans of a one-directory, one-file tree whose
metadata (hashes, sizes, times, language) changed between runs but whose
relpaths did not still upsert the same keys. -/
theorem scan_ids_deterministic_witness :
    scanUpsertIDs blakeW ['w']
        [{ RelPath := [], Hash := ['h'], ModTime := 1 }]
        [{ RelPath := ['a'], Size := 3, MTime := 1, Hash := ['x'], Lang := ['g', 'o'] }] =
      scanUpsertIDs blakeW ['w']
        [{ RelPath := [], Hash := ['k'], ModTime := 2 }]
        [{ RelPath := ['a'], Size := 4, MTime := 2, Hash := ['y'], Lang := ['m', 'd'] }] :=
  (scan_ids_deterministic blakeW ['w'] _ _ _ _ (by decide) (by decide)).1

/-! Part: Embedding orchestrator (src/unnamed/part_012)

float32 vectors are idealised as lists of exact rationals; the embedding
executor's HTTP hop is a `respond` parameter; the Surreal store's success
or failure is a boolean outcome. -/

/-- Mirror of `maxEmbedFileBytes = 256 * 1024`. -/
def maxEmbedFileBytes : Int := 256 * 1024

/-- Mirror of `embedBatchSize = 16`. -/
def embedBatchSize : Nat := 16

/-- Mirror of the Go struct `embedChunk` (part_012, lines 28-39). -/
structure embedChunk where
  RelPath : Bytes
  Index : Nat
  Start : Nat
  End : Nat
  TokenCount : Nat
  Text : Bytes
  ContentSHA : Bytes
  Size : Int
  Vector : List ℚ
  NativeDim : Nat
deriving DecidableEq, Repr

/-- Mirror of `isBinary` (part_012, lines 255-267): a NUL byte within the
first 1024 bytes marks the content binary. -/
def isBinary (content : Bytes) : Bool :=
  (content.take 1024).any (fun c => c == Char.ofNat 0)

/-- One filesystem entry visited by the embedding walk in
`collectEmbedChunks`: `size` is `info.Size()` and `content` the bytes
`os.ReadFile` returns (for a regular file `size` is the byte length of
`content`; the theorems carry that as a hypothesis).  Directories and
walk errors produce no chunks and are outside the model. -/
structure FileEntry where
  relpath : Bytes
  regular : Bool
  size : Int
  content : Bytes
deriving DecidableEq, Repr

/-- Error values of the embedding step, one constructor per Go error
construction site in part_012 and embedder.go. -/
inductive EmbedErr where
  | chunkFailed (relpath : Bytes)
  | noEmbeddable
  | execFailed (msg : Bytes)
  | countMismatch (expected got : Nat)
  | emptyVector (relpath : Bytes)
  | noNativeDim
  | storeFailed
  | missingEmbedding (relpath : Bytes) (index : Nat)
  | surrealOps (wsID : Bytes) (e : EmbedErr)
  | writeArtifact (relname : String)
deriving DecidableEq, Repr

/-- File filter of `collectEmbedChunks` (part_012, lines 91-107): regular,
non-zero size at most `maxEmbedFileBytes`, not binary. -/
def embedFileSelected (f : FileEntry) : Bool :=
  f.regular && !(f.size == 0 || decide (maxEmbedFileBytes < f.size)) && !(isBinary f.content)

/-- Chunk record built for one segment of one file (part_012,
lines 112-124); `Vector`/`NativeDim` keep their Go zero values until
`populateVectors` fills them. -/
def mkEmbedChunk (hash : Bytes → Bytes) (rel : Bytes) (i : Nat) (seg : tokenChunk) :
    embedChunk :=
  { RelPath := rel, Index := i, Start := seg.Start, End := seg.End,
    TokenCount := seg.TokenCount, Text := seg.Text,
    ContentSHA := hash seg.Text, Size := (seg.Text.length : Int),
    Vector := [], NativeDim := 0 }

/-- Mirror of `collectEmbedChunks` (part_012, lines 70-131) over the
walked file entries: selected files are chunked via the tokenizer and
their segments appended in walk order; a chunker failure aborts the whole
collection. -/
def collectEmbedChunks (encode : Encoder) (hash : Bytes → Bytes) :
    List FileEntry → Except EmbedErr (List embedChunk)
  | [] => .ok []
  | f :: fs =>
    if embedFileSelected f then
      match chunk encode f.content with
      | none => .error (.chunkFailed f.relpath)
      | some segs =>
        match collectEmbedChunks encode hash fs with
        | .error e => .error e
        | .ok rest => .ok (segs.mapIdx (fun i seg => mkEmbedChunk hash f.relpath i seg) ++ rest)
    else collectEmbedChunks encode hash fs

/-- Mirror of `embedder.Client.Embed` (src/internal/embedder/embedder.go,
lines 36-88): the HTTP transport and JSON decode are abstracted into
`respond` (an error message or the decoded rows); empty input returns
`nil, nil` without a call; the row-count check is the one at line 80. -/
def embedderEmbed (respond : List Bytes → Except Bytes (List (List ℚ)))
    (input : List Bytes) : Except EmbedErr (List (List ℚ)) :=
  if input.isEmpty then .ok []
  else
    match respond input with
    | .error msg => .error (.execFailed msg)
    | .ok rows =>
      if rows.length ≠ input.length then .error (.countMismatch input.length rows.length)
      else .ok rows

/-- Vector attachment to one chunk (part_012, lines 152-153). -/
def vecSet (c : embedChunk) (v : List ℚ) : embedChunk :=
  { c with Vector := v, NativeDim := v.length }

/-- Mirror of the attachment loop `for k, vec := range vectors` of
`populateVectors` (part_012, lines 148-154).  The loop ranges over the
returned vectors; the embedder's count check makes both lists equally
long at every call site. -/
def attachVectors : List embedChunk → List (List ℚ) → Except EmbedErr (List embedChunk)
  | batch, [] => .ok batch
  | [], _ :: _ => .ok []
  | c :: cs, v :: vs =>
    if v.isEmpty then .error (.emptyVector c.RelPath)
    else
      match attachVectors cs vs with
      | .error e => .error e
      | .ok rest => .ok (vecSet c v :: rest)

/-- Batch loop of `populateVectors` (part_012, lines 134-155), expressed
over the windows of at most `embedBatchSize` chunks that the index
arithmetic `i, j` slices out. -/
def populateBatches (respond : List Bytes → Except Bytes (List (List ℚ))) :
    List (List embedChunk) → Except EmbedErr (List embedChunk)
  | [] => .ok []
  | b :: bs =>
    match embedderEmbed respond (b.map embedChunk.Text) with
    | .error e => .error e
    | .ok rows =>
      match attachVectors b rows with
      | .error e => .error e
      | .ok b' =>
        match populateBatches respond bs with
        | .error e => .error e
        | .ok rest => .ok (b' ++ rest)

/-- Mirror of `populateVectors` (part_012, lines 133-157). -/
def populateVectors (respond : List Bytes → Except Bytes (List (List ℚ)))
    (chunks : List embedChunk) : Except EmbedErr (List embedChunk) :=
  populateBatches respond (windows embedBatchSize chunks)

/-- The record upserted as the workspace centroid. -/
structure CentroidRecord where
  vector : List ℚ
  sample : Nat
deriving DecidableEq, Repr

/-- Native-dimension scan of `storeEmbeddings` (part_012, lines 165-171):
the length of the first non-empty vector, `0` when none exists. -/
def nativeDimOf : List embedChunk → Nat
  | [] => 0
  | c :: cs => if 0 < c.Vector.length then c.Vector.length else nativeDimOf cs

/-- One iteration of the centroid accumulation loop of `storeEmbeddings`
(part_012, lines 224-232): a chunk whose vector length differs from the
native dimension is skipped; otherwise its vector is added componentwise
and the sample count incremented. -/
def centroidStep (d : Nat) (acc : List ℚ × Nat) (c : embedChunk) : List ℚ × Nat :=
  if c.Vector.length = d then (List.zipWith (· + ·) acc.1 c.Vector, acc.2 + 1) else acc

/-- Centroid accumulation of `storeEmbeddings` (part_012, lines 222-232),
starting from the zero vector `make([]float32, nativeDim)`. -/
def centroidAccum (d : Nat) (chunks : List embedChunk) : List ℚ × Nat :=
  chunks.foldl (centroidStep d) (List.replicate d 0, 0)

/-- Mirror of `storeEmbeddings` (part_012, lines 159-253), keeping its
validation and centroid arithmetic and collapsing the Surreal calls into
the `storeOk` outcome (the first failing call aborts the step; the model
upsert precedes the per-chunk missing-embedding check).  The value
returned is the workspace centroid record it upserts, `none` when no
chunk matched the native dimension. -/
def storeEmbeddings (storeOk : Bool) (chunks : List embedChunk) :
    Except EmbedErr (Option CentroidRecord) :=
  if nativeDimOf chunks = 0 then .error .noNativeDim
  else if !storeOk then .error .storeFailed
  else
    match chunks.find? (fun c => c.Vector.isEmpty) with
    | some c => .error (.missingEmbedding c.RelPath c.Index)
    | none =>
      let acc := centroidAccum (nativeDimOf chunks) chunks
      if 0 < acc.2 then
        .ok (some { vector := acc.1.map (fun q => q / (acc.2 : ℚ)), sample := acc.2 })
      else .ok none

/-- Dependencies of the embedding step: tokenizer, chunk hash, executor
transport, store outcome, artifact-write outcome. -/
structure EmbedDeps where
  encode : Encoder
  hash : Bytes → Bytes
  respond : List Bytes → Except Bytes (List (List ℚ))
  storeOk : Bool
  writeVectorsOk : Bool

/-- `filepath.Join` for one artifact name under a directory. -/
def joinPath (dir : Bytes) (relname : String) : Bytes := dir ++ '/' :: relname.toList

/-- Result triple of one pipeline stage: the artifact paths registered via
`run.AddArtifact` (in call order), the stage result's `Artifacts` field,
and the stage error. -/
structure EmbedOut where
  runArtifacts : List Bytes
  artifacts : List Bytes
  err : Option EmbedErr
deriving DecidableEq, Repr

/-- Mirror of `performEmbedding` (part_012, lines 41-68): collect, fail on
an empty chunk set, populate vectors, store, write `vectors.ndjson`; every
error path returns an empty `embedResult`. -/
def performEmbedding (deps : EmbedDeps) (wsID artifactDir : Bytes)
    (files : List FileEntry) : EmbedOut :=
  match collectEmbedChunks deps.encode deps.hash files with
  | .error e => { runArtifacts := [], artifacts := [], err := some e }
  | .ok chunks =>
    if chunks.isEmpty then { runArtifacts := [], artifacts := [], err := some .noEmbeddable }
    else
      match populateVectors deps.respond chunks with
      | .error e => { runArtifacts := [], artifacts := [], err := some e }
      | .ok chunks' =>
        match storeEmbeddings deps.storeOk chunks' with
        | .error e =>
          { runArtifacts := [], artifacts := [], err := some (.surrealOps wsID e) }
        | .ok _ =>
          if !deps.writeVectorsOk then
            { runArtifacts := [], artifacts := [],
              err := some (.writeArtifact "vectors.ndjson") }
          else
            { runArtifacts := [joinPath artifactDir "vectors.ndjson"],
              artifacts := [joinPath artifactDir "vectors.ndjson"], err := none }

theorem embedFileSelected_iff (f : FileEntry) :
    embedFileSelected f = true ↔
      (f.regular = true ∧ f.size ≠ 0 ∧ f.size ≤ maxEmbedFileBytes ∧
        isBinary f.content = false) := by
  simp only [embedFileSelected, Bool.and_eq_true, Bool.not_eq_true', Bool.or_eq_false_iff,
    beq_eq_false_iff_ne, ne_eq, decide_eq_false_iff_not, not_lt]
  tauto

/-- The empty regular file refuting C5 as stated. -/
def emptyFileC5 : FileEntry := { relpath := ['a'], regular := true, size := 0, content := [] }

/-- C5 counterexample: an empty regular file satisfies the claim's
criteria — regular, size at most 256 KiB, not binary — yet contributes no
chunks to the embedding set, because the walk skips it at the
`info.Size() == 0` guard (part_012, line 94). -/
theorem collect_empty_file_no_chunks :
    emptyFileC5.regular = true ∧
    emptyFileC5.size ≤ maxEmbedFileBytes ∧
    isBinary emptyFileC5.content = false ∧
    collectEmbedChunks charEncoder (fun b => b) [emptyFileC5] = .ok [] := by
  refine ⟨rfl, by decide, rfl, ?_⟩
  rfl

/-- C5 amended: during the embedding walk a file contributes chunks
exactly when it is a regular file of non-zero size at most 256 KiB
(`maxEmbedFileBytes`) that is not binary — the claim as stated omits the
non-zero-size condition that the empty file refutes — and if no chunks at
all are collected, the whole Embed step fails with the
`no embeddable files discovered` error.  The tokenizer hypotheses are the
BPE model of the external tiktoken library, and `hsz` records that the
walk's `info.Size()` is the byte length of a regular file's content. -/
theorem embed_eligibility (encode : Encoder) (hash : Bytes → Bytes) (f : FileEntry)
    (hsz : f.size = (f.content.length : Int))
    (hjoin : (encode f.content).flatten = f.content)
    (hne : ∀ tok ∈ encode f.content, tok ≠ []) :
    (∃ cs, collectEmbedChunks encode hash [f] = .ok cs ∧
      (cs ≠ [] ↔ (f.regular = true ∧ f.size ≠ 0 ∧ f.size ≤ maxEmbedFileBytes ∧
        isBinary f.content = false))) ∧
    (∀ (deps : EmbedDeps) (wsID dir : Bytes) (files : List FileEntry),
      collectEmbedChunks deps.encode deps.hash files = .ok [] →
      (performEmbedding deps wsID dir files).err = some EmbedErr.noEmbeddable) := by
  constructor
  · by_cases hsel : embedFileSelected f = true
    · obtain ⟨hreg, hs0, hsmax, hbin⟩ := (embedFileSelected_iff f).mp hsel
      have hcne : f.content ≠ [] := by
        intro hcon
        rw [hcon] at hsz
        simp at hsz
        exact hs0 hsz
      obtain ⟨cs₀, hck, hflat, -, -, -, -, hnil⟩ := chunk_spec encode f.content hjoin hne
      have hcs₀ : cs₀ ≠ [] := fun hcon => hcne (hnil hcon)
      refine ⟨cs₀.mapIdx (fun i seg => mkEmbedChunk hash f.relpath i seg) ++ [], ?_, ?_⟩
      · simp [collectEmbedChunks, hsel, hck]
      · constructor
        · intro _
          exact ⟨hreg, hs0, hsmax, hbin⟩
        · intro _ hcon
          rw [List.append_nil] at hcon
          have := congrArg List.length hcon
          rw [List.length_mapIdx] at this
          exact hcs₀ (List.length_eq_zero.mp this)
    · refine ⟨[], by simp [collectEmbedChunks, hsel], ?_⟩
      simp only [ne_eq, not_true_eq_false, false_iff]
      rw [← embedFileSelected_iff]
      simp [hsel]
  · intro deps wsID dir files hcol
    simp [performEmbedding, hcol]

/-- Regular one-byte file used in C5's witness. -/
def fileW : FileEntry := { relpath := ['a'], regular := true, size := 1, content := ['a'] }

/-- Witness for C5's amended claim at a concrete eligible file. -/
theorem embed_eligibility_witness :
    ∃ cs, collectEmbedChunks charEncoder (fun b => b) [fileW] = .ok cs ∧
      (cs ≠ [] ↔ (fileW.regular = true ∧ fileW.size ≠ 0 ∧
        fileW.size ≤ maxEmbedFileBytes ∧ isBinary fileW.content = false)) :=
  (embed_eligibility charEncoder (fun b => b) fileW (by decide) (by decide) (by decide)).1

/-! Helpers: populateVectors lemmas -/

theorem embedderEmbed_ok_length (respond : List Bytes → Except Bytes (List (List ℚ)))
    (input : List Bytes) (rows : List (List ℚ))
    (h : embedderEmbed respond input = .ok rows) : rows.length = input.length := by
  unfold embedderEmbed at h
  split at h
  · rename_i hemp
    rw [Except.ok.injEq] at h
    subst h
    simp [List.isEmpty_iff.mp hemp]
  · split at h
    · cases h
    · split at h
      · cases h
      · rename_i hcount
        rw [Except.ok.injEq] at h
        subst h
        omega

theorem embedderEmbed_err (respond : List Bytes → Except Bytes (List (List ℚ)))
    (input : List Bytes) (e : EmbedErr)
    (h : embedderEmbed respond input = .error e) :
    (∃ msg, e = .execFailed msg) ∨ ∃ m n, e = .countMismatch m n ∧ m ≠ n := by
  unfold embedderEmbed at h
  split at h
  · cases h
  · split at h
    · rw [Except.error.injEq] at h
      exact Or.inl ⟨_, h.symm⟩
    · split at h
      · rename_i hcount
        rw [Except.error.injEq] at h
        exact Or.inr ⟨_, _, h.symm, fun hc => hcount hc.symm⟩
      · cases h

theorem attachVectors_ok : ∀ (batch : List embedChunk) (vs : List (List ℚ))
    (out : List embedChunk), vs.length = batch.length →
    attachVectors batch vs = .ok out →
    out = List.zipWith vecSet batch vs ∧ ∀ v ∈ vs, v ≠ [] := by
  intro batch
  induction batch with
  | nil =>
    intro vs out hlen h
    have hvs : vs = [] := List.length_eq_zero.mp hlen
    subst hvs
    rw [show attachVectors [] [] = .ok [] from rfl, Except.ok.injEq] at h
    subst h
    exact ⟨rfl, by simp⟩
  | cons c cs ih =>
    intro vs out hlen h
    cases vs with
    | nil => simp at hlen
    | cons v vt =>
      rw [show attachVectors (c :: cs) (v :: vt)
          = (if v.isEmpty then .error (.emptyVector c.RelPath)
             else
               match attachVectors cs vt with
               | .error e => .error e
               | .ok rest => .ok (vecSet c v :: rest)) from rfl] at h
      split at h
      · cases h
      · rename_i hvemp
        split at h
        · cases h
        · rename_i rest hrest
          rw [Except.ok.injEq] at h
          subst h
          obtain ⟨h1, h2⟩ := ih vt rest (by simpa using hlen) hrest
          refine ⟨by rw [List.zipWith_cons_cons, h1], ?_⟩
          intro x hx
          rcases List.mem_cons.mp hx with rfl | hx
          · simpa [List.isEmpty_iff] using hvemp
          · exact h2 x hx

theorem attachVectors_err : ∀ (batch : List embedChunk) (vs : List (List ℚ)) (e : EmbedErr),
    attachVectors batch vs = .error e →
    ∃ c ∈ batch, e = .emptyVector c.RelPath := by
  intro batch
  induction batch with
  | nil =>
    intro vs e h
    cases vs with
    | nil => cases h
    | cons v vt => cases h
  | cons c cs ih =>
    intro vs e h
    cases vs with
    | nil => cases h
    | cons v vt =>
      rw [show attachVectors (c :: cs) (v :: vt)
          = (if v.isEmpty then .error (.emptyVector c.RelPath)
             else
               match attachVectors cs vt with
               | .error e => .error e
               | .ok rest => .ok (vecSet c v :: rest)) from rfl] at h
      split at h
      · rw [Except.error.injEq] at h
        exact ⟨c, by simp, h.symm⟩
      · split at h
        · rename_i e' he'
          rw [Except.error.injEq] at h
          subst h
          obtain ⟨c', hc', he⟩ := ih vt e' he'
          exact ⟨c', by simp [hc'], he⟩
        · cases h

theorem populateBatches_ok (respond : List Bytes → Except Bytes (List (List ℚ))) :
    ∀ (bs : List (List embedChunk)) (result : List embedChunk),
      populateBatches respond bs = .ok result →
      ∃ vss, vss.length = bs.length ∧
        (∀ p ∈ bs.zip vss,
          embedderEmbed respond (p.1.map embedChunk.Text) = .ok p.2 ∧
          p.2.length = p.1.length ∧ ∀ v ∈ p.2, v ≠ []) ∧
        result = (List.zipWith (fun b vs => List.zipWith vecSet b vs) bs vss).flatten := by
  intro bs
  induction bs with
  | nil =>
    intro result h
    rw [show populateBatches respond [] = .ok [] from rfl, Except.ok.injEq] at h
    subst h
    exact ⟨[], rfl, by simp, rfl⟩
  | cons b bs ih =>
    intro result h
    rw [show populateBatches respond (b :: bs)
        = (match embedderEmbed respond (b.map embedChunk.Text) with
           | .error e => .error e
           | .ok rows =>
             match attachVectors b rows with
             | .error e => .error e
             | .ok b' =>
               match populateBatches respond bs with
               | .error e => .error e
               | .ok rest => .ok (b' ++ rest)) from rfl] at h
    split at h
    · cases h
    · rename_i rows hrows
      split at h
      · cases h
      · rename_i b' hb'
        split at h
        · cases h
        · rename_i rest hrest
          rw [Except.ok.injEq] at h
          subst h
          have hrlen : rows.length = b.length := by
            have := embedderEmbed_ok_length respond (b.map embedChunk.Text) rows hrows
            simpa using this
          obtain ⟨hb'eq, hvne⟩ := attachVectors_ok b rows b' hrlen hb'
          obtain ⟨vss, hlen, hprop, hres⟩ := ih rest hrest
          refine ⟨rows :: vss, by simp [hlen], ?_, ?_⟩
          · intro p hp
            rw [List.zip_cons_cons] at hp
            rcases List.mem_cons.mp hp with rfl | hp
            · exact ⟨hrows, hrlen, hvne⟩
            · exact hprop p hp
          · rw [List.zipWith_cons_cons, List.flatten_cons, hb'eq, hres]

theorem populateBatches_err (respond : List Bytes → Except Bytes (List (List ℚ))) :
    ∀ (bs : List (List embedChunk)) (e : EmbedErr),
      populateBatches respond bs = .error e →
      (∃ msg, e = .execFailed msg) ∨ (∃ m n, e = .countMismatch m n ∧ m ≠ n) ∨
      (∃ c, (∃ b ∈ bs, c ∈ b) ∧ e = .emptyVector c.RelPath) := by
  intro bs
  induction bs with
  | nil => intro e h; cases h
  | cons b bs ih =>
    intro e h
    rw [show populateBatches respond (b :: bs)
        = (match embedderEmbed respond (b.map embedChunk.Text) with
           | .error e => .error e
           | .ok rows =>
             match attachVectors b rows with
             | .error e => .error e
             | .ok b' =>
               match populateBatches respond bs with
               | .error e => .error e
               | .ok rest => .ok (b' ++ rest)) from rfl] at h
    split at h
    · rename_i e' he'
      rw [Except.error.injEq] at h
      subst h
      rcases embedderEmbed_err respond _ e' he' with h1 | h1
      · exact Or.inl h1
      · exact Or.inr (Or.inl h1)
    · split at h
      · rename_i e' he'
        rw [Except.error.injEq] at h
        subst h
        obtain ⟨c, hc, he⟩ := attachVectors_err b _ e' he'
        exact Or.inr (Or.inr ⟨c, ⟨b, by simp, hc⟩, he⟩)
      · split at h
        · rename_i e' he'
          rw [Except.error.injEq] at h
          subst h
          rcases ih e' he' with h1 | h1 | ⟨c, ⟨b', hb', hc⟩, he⟩
          · exact Or.inl h1
          · exact Or.inr (Or.inl h1)
          · exact Or.inr (Or.inr ⟨c, ⟨b', by simp [hb'], hc⟩, he⟩)
        · cases h

theorem zipWith_vecSet_mem (batch : List embedChunk) :
    ∀ (vs : List (List ℚ)), (∀ v ∈ vs, v ≠ []) →
      ∀ c ∈ List.zipWith vecSet batch vs,
        c.Vector ≠ [] ∧ c.NativeDim = c.Vector.length := by
  induction batch with
  | nil => intro vs _ c hc; cases hc
  | cons b bs ih =>
    intro vs hvs c hc
    cases vs with
    | nil => cases hc
    | cons v vt =>
      rw [List.zipWith_cons_cons] at hc
      rcases List.mem_cons.mp hc with rfl | hc
      · exact ⟨hvs v (by simp), rfl⟩
      · exact ih vt (fun x hx => hvs x (by simp [hx])) c hc

theorem zipflat_length : ∀ (bs : List (List embedChunk)) (vss : List (List (List ℚ))),
    vss.length = bs.length →
    (∀ p ∈ bs.zip vss, p.2.length = p.1.length) →
    ((List.zipWith (fun b vs => List.zipWith vecSet b vs) bs vss).flatten).length
      = bs.flatten.length := by
  intro bs
  induction bs with
  | nil => intro vss _ _; simp
  | cons b bs ih =>
    intro vss hlen hprop
    cases vss with
    | nil => simp at hlen
    | cons v vt =>
      have hv : v.length = b.length := (hprop (b, v) (by rw [List.zip_cons_cons]; simp)).symm ▸
        (hprop (b, v) (by rw [List.zip_cons_cons]; simp))
      rw [List.zipWith_cons_cons, List.flatten_cons, List.flatten_cons,
        List.length_append, List.length_append, List.length_zipWith, hv,
        ih vt (by simpa using hlen)
          (fun p hp => hprop p (by rw [List.zip_cons_cons]; exact List.mem_cons_of_mem _ hp))]
      simp

theorem zipflat_mem : ∀ (bs : List (List embedChunk)) (vss : List (List (List ℚ))),
    (∀ p ∈ bs.zip vss, ∀ v ∈ p.2, v ≠ []) →
    ∀ c ∈ (List.zipWith (fun b vs => List.zipWith vecSet b vs) bs vss).flatten,
      c.Vector ≠ [] ∧ c.NativeDim = c.Vector.length := by
  intro bs
  induction bs with
  | nil => intro vss _ c hc; cases hc
  | cons b bs ih =>
    intro vss hprop c hc
    cases vss with
    | nil => cases hc
    | cons v vt =>
      rw [List.zipWith_cons_cons, List.flatten_cons] at hc
      rcases List.mem_append.mp hc with hc | hc
      · exact zipWith_vecSet_mem b v
          (hprop (b, v) (by rw [List.zip_cons_cons]; simp)) c hc
      · exact ih vt
          (fun p hp => hprop p (by rw [List.zip_cons_cons]; exact List.mem_cons_of_mem _ hp))
          c hc

/-- C6: `populateVectors` submits the collected chunks to the embedding
executor in consecutive batches of at most 16 in chunk order (the windows
tile the chunk list); a successful run means every executor call returned
exactly one vector per submitted text, in order, none empty, and every
chunk ends up carrying the vector returned at its batch index with
`NativeDim` equal to that vector's length; and every failure is a
transport error, a count mismatch naming the two counts, or an
empty-vector error naming the offending file's relpath. -/
theorem populateVectors_spec (respond : List Bytes → Except Bytes (List (List ℚ)))
    (chunks : List embedChunk) :
    ((windows embedBatchSize chunks).flatten = chunks ∧
      ∀ b ∈ windows embedBatchSize chunks, b.length ≤ embedBatchSize ∧ b ≠ []) ∧
    (∀ result, populateVectors respond chunks = .ok result →
      (result.length = chunks.length ∧
        ∀ c ∈ result, c.Vector ≠ [] ∧ c.NativeDim = c.Vector.length) ∧
      ∃ vss, vss.length = (windows embedBatchSize chunks).length ∧
        (∀ p ∈ (windows embedBatchSize chunks).zip vss,
          embedderEmbed respond (p.1.map embedChunk.Text) = .ok p.2 ∧
          p.2.length = p.1.length ∧ ∀ v ∈ p.2, v ≠ []) ∧
        result = (List.zipWith (fun b vs => List.zipWith vecSet b vs)
          (windows embedBatchSize chunks) vss).flatten) ∧
    (∀ e, populateVectors respond chunks = .error e →
      (∃ msg, e = .execFailed msg) ∨ (∃ m n, e = .countMismatch m n ∧ m ≠ n) ∨
      (∃ rel, e = .emptyVector rel ∧ rel ∈ chunks.map embedChunk.RelPath)) := by
  have hk : 0 < embedBatchSize := by decide
  refine ⟨⟨windows_flatten _ hk chunks, ?_⟩, ?_, ?_⟩
  · intro b hb
    obtain ⟨h1, h2, -⟩ := windows_mem _ hk chunks b hb
    exact ⟨h1, h2⟩
  · intro result h
    obtain ⟨vss, hlen, hprop, hres⟩ := populateBatches_ok respond _ result h
    refine ⟨⟨?_, ?_⟩, vss, hlen, hprop, hres⟩
    · rw [hres, zipflat_length _ vss hlen (fun p hp => (hprop p hp).2.1),
        windows_flatten _ hk chunks]
    · intro c hc
      rw [hres] at hc
      exact zipflat_mem _ vss (fun p hp => (hprop p hp).2.2) c hc
  · intro e h
    rcases populateBatches_err respond _ e h with h1 | h1 | ⟨c, ⟨b, hb, hc⟩, he⟩
    · exact Or.inl h1
    · exact Or.inr (Or.inl h1)
    · refine Or.inr (Or.inr ⟨c.RelPath, he, ?_⟩)
      obtain ⟨-, -, hmem⟩ := windows_mem _ hk chunks b hb
      exact List.mem_map_of_mem embedChunk.RelPath (hmem c hc)

/-- Executor stub returning a fixed one-dimensional vector per input,
used in witnesses. -/
def respondW : List Bytes → Except Bytes (List (List ℚ)) :=
  fun inputs => .ok (inputs.map (fun _ => [(1 : ℚ)]))

/-- A concrete collected chunk used in witnesses. -/
def chunkW : embedChunk := mkEmbedChunk (fun b => b) ['a'] 0 (tokenChunk.mk ['a'] 0 1 1)

/-- Witness for C6 at one chunk and the stub executor. -/
theorem populateVectors_spec_witness :
    ([vecSet chunkW [(1 : ℚ)]]).length = [chunkW].length ∧
    ∀ c ∈ [vecSet chunkW [(1 : ℚ)]], c.Vector ≠ [] ∧ c.NativeDim = c.Vector.length :=
  ((populateVectors_spec respondW [chunkW]).2.1 [vecSet chunkW [(1 : ℚ)]] rfl).1

/-! Helpers: Centroid lemmas -/

theorem getD_zipWith_add (a b : List ℚ) (i : Nat) (ha : i < a.length) (hb : i < b.length) :
    (List.zipWith (· + ·) a b).getD i 0 = a.getD i 0 + b.getD i 0 := by
  have hz : i < (List.zipWith (· + ·) a b).length := by
    rw [List.length_zipWith]
    exact lt_min ha hb
  rw [List.getD_eq_getElem _ _ hz, List.getD_eq_getElem _ _ ha, List.getD_eq_getElem _ _ hb,
    List.getElem_zipWith]

theorem centroidFold_spec (d : Nat) :
    ∀ (chunks : List embedChunk), (∀ c ∈ chunks, c.Vector.length = d) →
      ∀ (acc : List ℚ) (n : Nat), acc.length = d →
      (chunks.foldl (centroidStep d) (acc, n)).2 = n + chunks.length ∧
      (chunks.foldl (centroidStep d) (acc, n)).1.length = d ∧
      ∀ i, i < d →
        (chunks.foldl (centroidStep d) (acc, n)).1.getD i 0
          = acc.getD i 0 + (chunks.map (fun c => c.Vector.getD i 0)).sum := by
  intro chunks
  induction chunks with
  | nil =>
    intro _ acc n hacc
    exact ⟨by simp, by simpa using hacc, fun i hi => by simp⟩
  | cons c cs ih =>
    intro hall acc n hacc
    have hc : c.Vector.length = d := hall c (by simp)
    have hstep : centroidStep d (acc, n) c = (List.zipWith (· + ·) acc c.Vector, n + 1) := by
      simp [centroidStep, hc]
    rw [List.foldl_cons, hstep]
    have hzl : (List.zipWith (· + ·) acc c.Vector).length = d := by
      rw [List.length_zipWith, hacc, hc]
      simp
    obtain ⟨h1, h2, h3⟩ := ih (fun x hx => hall x (by simp [hx])) _ (n + 1) hzl
    refine ⟨?_, h2, ?_⟩
    · rw [h1]
      simp only [List.length_cons]
      omega
    · intro i hi
      rw [h3 i hi, getD_zipWith_add acc c.Vector i (by omega) (by omega)]
      simp only [List.map_cons, List.sum_cons]
      ring

/-- C7: when every chunk of a run carries a vector of the same native
dimension `d`, the stored workspace centroid's vector is the
per-dimension arithmetic mean of all chunk vectors and its sample count
is the number of chunks; and a chunk list in which no vector determines a
native dimension makes the step fail.  Vector arithmetic is the exact
rational idealisation of the float32 loop. -/
theorem centroid_correct (chunks : List embedChunk) (d : Nat)
    (hd : 0 < d) (hne : chunks ≠ [])
    (hall : ∀ c ∈ chunks, c.Vector.length = d) :
    (∃ w, storeEmbeddings true chunks = .ok (some w) ∧
      w.sample = chunks.length ∧
      w.vector.length = d ∧
      ∀ i, i < d → w.vector.getD i 0
        = (chunks.map (fun c => c.Vector.getD i 0)).sum / (chunks.length : ℚ)) ∧
    (∀ cs : List embedChunk, nativeDimOf cs = 0 →
      storeEmbeddings true cs = .error EmbedErr.noNativeDim) := by
  have hdim : nativeDimOf chunks = d := by
    cases chunks with
    | nil => exact absurd rfl hne
    | cons c cs =>
      have hc : c.Vector.length = d := hall c (by simp)
      simp [nativeDimOf, hc, hd]
  have hfind : chunks.find? (fun c => c.Vector.isEmpty) = none := by
    rw [List.find?_eq_none]
    intro x hx hcon
    have hxe : x.Vector = [] := by simpa [List.isEmpty_iff] using hcon
    have hxl := hall x hx
    rw [hxe] at hxl
    simp at hxl
    omega
  have hacc : centroidAccum d chunks
      = chunks.foldl (centroidStep d) (List.replicate d 0, 0) := rfl
  obtain ⟨h1, h2, h3⟩ :=
    centroidFold_spec d chunks hall (List.replicate d 0) 0 (by simp)
  have hsample : (centroidAccum d chunks).2 = chunks.length := by
    rw [hacc, h1]
    omega
  have hpos : 0 < (centroidAccum d chunks).2 := by
    rw [hsample]
    exact List.length_pos.mpr hne
  constructor
  · refine ⟨CentroidRecord.mk
      ((centroidAccum d chunks).1.map (fun q => q / ((centroidAccum d chunks).2 : ℚ)))
      (centroidAccum d chunks).2, ?_, hsample, ?_, ?_⟩
    · simp only [storeEmbeddings, hdim, hfind]
      rw [if_neg (by omega), if_neg (by simp)]
      simp [hpos]
    · rw [List.length_map, hacc, h2]
    · intro i hi
      have hl : i < (centroidAccum d chunks).1.length := by
        rw [hacc, h2]
        exact hi
      have hlm : i < ((centroidAccum d chunks).1.map
          (fun q => q / ((centroidAccum d chunks).2 : ℚ))).length := by
        rw [List.length_map]
        exact hl
      show ((centroidAccum d chunks).1.map
          (fun q => q / ((centroidAccum d chunks).2 : ℚ))).getD i 0 = _
      rw [List.getD_eq_getElem _ _ hlm, List.getElem_map,
        ← List.getD_eq_getElem _ _ hl, hacc, h3 i hi, h1]
      simp
  · intro cs h
    simp [storeEmbeddings, h]

/-- Witness for C7 at a single chunk carrying the vector `[2, 4]`. -/
theorem centroid_correct_witness :
    (∃ w, storeEmbeddings true [vecSet chunkW [(2 : ℚ), (4 : ℚ)]] = .ok (some w) ∧
      w.sample = [vecSet chunkW [(2 : ℚ), (4 : ℚ)]].length ∧
      w.vector.length = 2 ∧
      ∀ i, i < 2 → w.vector.getD i 0
        = ([vecSet chunkW [(2 : ℚ), (4 : ℚ)]].map (fun c => c.Vector.getD i 0)).sum
            / (([vecSet chunkW [(2 : ℚ), (4 : ℚ)]].length : ℕ) : ℚ)) :=
  (centroid_correct [vecSet chunkW [(2 : ℚ), (4 : ℚ)]] 2 (by decide) (by simp)
    (by simp [vecSet])).1

/-! Part: Pipeline coordinator (the SDK-based indexer service file,
src/internal/indexer/e2e_windows_test.go, second file, lines 121-311) -/

/-- Mirror of `StepScan`. -/
def StepScan : String := "index.scan"

/-- Mirror of `StepEmbed`. -/
def StepEmbed : String := "index.embed"

/-- Mirror of `StepAll`. -/
def StepAll : String := "index.all"

/-- Mirror of the Go struct `WorkspaceRequest` (`NodeID` is unused by the
pipeline). -/
structure WorkspaceRequest where
  WorkspaceRoot : Bytes
  WorkspaceID : Bytes
  RunID : Bytes
deriving DecidableEq, Repr

/-- Outcome of `os.Stat(req.WorkspaceRoot)`. -/
structure FSInfo where
  statOk : Bool
  isDir : Bool
deriving DecidableEq, Repr

/-- Validation errors, one constructor per `fmt.Errorf` site in
`validateWorkspaceRequest`. -/
inductive ValErr where
  | rootRequired
  | idRequired
  | rootAccess
  | notDir
deriving DecidableEq, Repr

/-- Mirror of `validateWorkspaceRequest` (lines 292-311); the trailing
`filepath.Abs` normalisation mutates only the local copy and is omitted. -/
def validateWorkspaceRequest (fs : FSInfo) (req : WorkspaceRequest) : Option ValErr :=
  if goTrimSpace req.WorkspaceRoot = [] then some .rootRequired
  else if goTrimSpace req.WorkspaceID = [] then some .idRequired
  else if !fs.statOk then some .rootAccess
  else if !fs.isDir then some .notDir
  else none

/-- Scan-step errors, one constructor per error site of `performScan`. -/
inductive ScanErr where
  | mergeWorkspace
  | walkFailed (msg : Bytes)
  | storeFailed
  | writeArtifact (relname : String)
deriving DecidableEq, Repr

/-- External outcomes of one `performScan` execution: the workspace
merge, the tree walk (yielding the metadata on success), the Surreal
upsert and relate loop, and the two artifact writes. -/
structure ScanDeps where
  mergeOk : Bool
  walkResult : Except Bytes (List dirMeta × List fileMeta)
  storeOk : Bool
  writeFilesOk : Bool
  writeDirsOk : Bool

/-- Result triple of one `performScan` call, like `EmbedOut`. -/
structure ScanOut where
  runArtifacts : List Bytes
  artifacts : List Bytes
  err : Option ScanErr
deriving DecidableEq, Repr

/-- Mirror of `performScan` (src/internal/indexer/token_chunker_test.go,
first file, lines 81-205): merge the workspace record, walk the tree,
upsert and relate every record (collapsed into `storeOk`; any failing
call aborts before the artifact writes), then write and register
`files.ndjson` followed by `dirs.ndjson`.  Every error path returns an
empty `scanResult`, even after `files.ndjson` has been registered with
the Run. -/
def performScan (deps : ScanDeps) (artifactDir : Bytes) : ScanOut :=
  if !deps.mergeOk then { runArtifacts := [], artifacts := [], err := some .mergeWorkspace }
  else
    match deps.walkResult with
    | .error msg => { runArtifacts := [], artifacts := [], err := some (.walkFailed msg) }
    | .ok _ =>
      if !deps.storeOk then
        { runArtifacts := [], artifacts := [], err := some .storeFailed }
      else if !deps.writeFilesOk then
        { runArtifacts := [], artifacts := [], err := some (.writeArtifact "files.ndjson") }
      else if !deps.writeDirsOk then
        { runArtifacts := [joinPath artifactDir "files.ndjson"], artifacts := [],
          err := some (.writeArtifact "dirs.ndjson") }
      else
        { runArtifacts := [joinPath artifactDir "files.ndjson",
            joinPath artifactDir "dirs.ndjson"],
          artifacts := [joinPath artifactDir "files.ndjson",
            joinPath artifactDir "dirs.ndjson"],
          err := none }

/-- Risk entries appended to reports, one constructor per Go format
string (`err.Error()` in Scan and Embed, `scan failed: %s` and
`embedding failed: %s` in All). -/
inductive Risk where
  | scanErr (e : ScanErr)
  | embedErr (e : EmbedErr)
  | scanFailed (e : ScanErr)
  | embedFailed (e : EmbedErr)
deriving DecidableEq, Repr

/-- Mirror of the Go struct `RunReport` (timestamps omitted). -/
structure RunReport where
  RunID : Bytes
  Step : String
  Acceptance : String
  ArtifactPaths : List Bytes
  Risks : List Risk
  Notes : List Bytes
deriving DecidableEq, Repr

/-- Top-level error returned by Scan, Embed or All. -/
inductive IndexErr where
  | validation (e : ValErr)
  | runCreate
  | scan (e : ScanErr)
  | embed (e : EmbedErr)
deriving DecidableEq, Repr

/-- Mirror of the Go struct `runctx.Run` (started time omitted). -/
structure Run where
  RunID : Bytes
  WorkspaceID : Bytes
  WorkspaceRoot : Bytes
  Step : String
  ArtifactDir : Bytes
deriving DecidableEq, Repr

/-- Mirror of `runctx.New` (run.go, lines 27-51) minus the `MkdirAll`
side effect, whose outcome is the coordinator's `runCreateOk` flag: the
caller-supplied run id or the generated one, and the artifact directory
`artifactRoot/runID`.  The coordinator's step strings are never empty, so
the `step is required` check cannot fire. -/
def runctxNew (blake3 : HashFn) (artifactRoot runID workspaceID workspaceRoot : Bytes)
    (step : String) (started : GoTime) : Run :=
  { RunID := if runID = [] then GenerateRunID blake3 workspaceID step.toList started
      else runID,
    WorkspaceID := workspaceID, WorkspaceRoot := workspaceRoot, Step := step,
    ArtifactDir := artifactRoot ++ '/' ::
      (if runID = [] then GenerateRunID blake3 workspaceID step.toList started else runID) }

/-- Dependency bundle of the indexer service: filesystem stat of the
workspace root, hash, clock, artifact root, run-directory creation
outcome, and the two stages' external outcomes. -/
structure IndexerDeps where
  fs : FSInfo
  blake3 : HashFn
  now : GoTime
  artifactRoot : Bytes
  runCreateOk : Bool
  scanDeps : ScanDeps
  embedDeps : EmbedDeps
  embedFiles : List FileEntry

/-- The Run an operation allocates for a given step. -/
def runForStep (deps : IndexerDeps) (req : WorkspaceRequest) (step : String) : Run :=
  runctxNew deps.blake3 deps.artifactRoot req.RunID req.WorkspaceID req.WorkspaceRoot
    step deps.now

/-- Pipeline stages, for recording which stage functions executed. -/
inductive Stage where
  | scan
  | embed
deriving DecidableEq, Repr

/-- Observable outcome of one coordinator operation: the report and error
returned to the caller, whether `runctx.New` was reached (and hence a run
id assigned and an artifact directory created), and which stages ran. -/
structure OpOutcome where
  report : Option RunReport
  err : Option IndexErr
  runAllocated : Bool
  stages : List Stage
deriving Repr

/-- Report constructor shared by the three operations: the report is
created with empty artifact, risk and note lists and filled per outcome
(timestamps omitted). -/
def mkReport (rid : Bytes) (step acceptance : String) (paths : List Bytes)
    (risks : List Risk) : RunReport :=
  { RunID := rid, Step := step, Acceptance := acceptance,
    ArtifactPaths := [] ++ paths, Risks := [] ++ risks, Notes := [] }

/-- Mirror of `Indexer.Scan` (lines 195-222). -/
def ScanOp (deps : IndexerDeps) (req : WorkspaceRequest) : OpOutcome :=
  match validateWorkspaceRequest deps.fs req with
  | some e =>
    { report := none, err := some (.validation e), runAllocated := false, stages := [] }
  | none =>
    if !deps.runCreateOk then
      { report := none, err := some .runCreate, runAllocated := true, stages := [] }
    else
      match (performScan deps.scanDeps (runForStep deps req StepScan).ArtifactDir).err with
      | some e =>
        { report := some (mkReport (runForStep deps req StepScan).RunID StepScan "fail"
            [] [.scanErr e]),
          err := some (.scan e), runAllocated := true, stages := [.scan] }
      | none =>
        { report := some (mkReport (runForStep deps req StepScan).RunID StepScan "pass"
            (performScan deps.scanDeps (runForStep deps req StepScan).ArtifactDir).artifacts
            []),
          err := none, runAllocated := true, stages := [.scan] }

/-- Mirror of `Indexer.Embed` (lines 225-252). -/
def EmbedOp (deps : IndexerDeps) (req : WorkspaceRequest) : OpOutcome :=
  match validateWorkspaceRequest deps.fs req with
  | some e =>
    { report := none, err := some (.validation e), runAllocated := false, stages := [] }
  | none =>
    if !deps.runCreateOk then
      { report := none, err := some .runCreate, runAllocated := true, stages := [] }
    else
      match (performEmbedding deps.embedDeps req.WorkspaceID
          (runForStep deps req StepEmbed).ArtifactDir deps.embedFiles).err with
      | some e =>
        { report := some (mkReport (runForStep deps req StepEmbed).RunID StepEmbed "fail"
            [] [.embedErr e]),
          err := some (.embed e), runAllocated := true, stages := [.embed] }
      | none =>
        { report := some (mkReport (runForStep deps req StepEmbed).RunID StepEmbed "pass"
            (performEmbedding deps.embedDeps req.WorkspaceID
              (runForStep deps req StepEmbed).ArtifactDir deps.embedFiles).artifacts
            []),
          err := none, runAllocated := true, stages := [.embed] }

/-- Mirror of `Indexer.All` (lines 255-290): Scan then Embed under one
Run; a Scan failure reports `fail` with Scan's (empty-on-error) artifacts
and skips Embed; an Embed failure reports `fail` with both stages'
artifacts appended. -/
def AllOp (deps : IndexerDeps) (req : WorkspaceRequest) : OpOutcome :=
  match validateWorkspaceRequest deps.fs req with
  | some e =>
    { report := none, err := some (.validation e), runAllocated := false, stages := [] }
  | none =>
    if !deps.runCreateOk then
      { report := none, err := some .runCreate, runAllocated := true, stages := [] }
    else
      match (performScan deps.scanDeps (runForStep deps req StepAll).ArtifactDir).err with
      | some e =>
        { report := some (mkReport (runForStep deps req StepAll).RunID StepAll "fail"
            (performScan deps.scanDeps (runForStep deps req StepAll).ArtifactDir).artifacts
            [.scanFailed e]),
          err := some (.scan e), runAllocated := true, stages := [.scan] }
      | none =>
        match (performEmbedding deps.embedDeps req.WorkspaceID
            (runForStep deps req StepAll).ArtifactDir deps.embedFiles).err with
        | some e =>
          { report := some (mkReport (runForStep deps req StepAll).RunID StepAll "fail"
              ((performScan deps.scanDeps
                  (runForStep deps req StepAll).ArtifactDir).artifacts ++
                (performEmbedding deps.embedDeps req.WorkspaceID
                  (runForStep deps req StepAll).ArtifactDir deps.embedFiles).artifacts)
              [.embedFailed e]),
            err := some (.embed e), runAllocated := true, stages := [.scan, .embed] }
        | none =>
          { report := some (mkReport (runForStep deps req StepAll).RunID StepAll "pass"
              ((performScan deps.scanDeps
                  (runForStep deps req StepAll).ArtifactDir).artifacts ++
                (performEmbedding deps.embedDeps req.WorkspaceID
                  (runForStep deps req StepAll).ArtifactDir deps.embedFiles).artifacts)
              []),
            err := none, runAllocated := true, stages := [.scan, .embed] }

/-! Helpers: Coordinator lemmas -/

theorem performScan_artifacts (deps : ScanDeps) (dir : Bytes) :
    ((performScan deps dir).err = none →
      (performScan deps dir).artifacts
        = [joinPath dir "files.ndjson", joinPath dir "dirs.ndjson"]) ∧
    ((performScan deps dir).err ≠ none → (performScan deps dir).artifacts = []) := by
  unfold performScan
  cases hm : deps.mergeOk with
  | false => exact ⟨fun h => Option.noConfusion h, fun _ => rfl⟩
  | true =>
    cases hw : deps.walkResult with
    | error msg => exact ⟨fun h => Option.noConfusion h, fun _ => rfl⟩
    | ok walked =>
      cases hs : deps.storeOk with
      | false => exact ⟨fun h => Option.noConfusion h, fun _ => rfl⟩
      | true =>
        cases hf : deps.writeFilesOk with
        | false => exact ⟨fun h => Option.noConfusion h, fun _ => rfl⟩
        | true =>
          cases hd : deps.writeDirsOk with
          | false => exact ⟨fun h => Option.noConfusion h, fun _ => rfl⟩
          | true => exact ⟨fun _ => rfl, fun h => absurd rfl h⟩

theorem performEmbedding_artifacts (deps : EmbedDeps) (wsID dir : Bytes)
    (files : List FileEntry) :
    ((performEmbedding deps wsID dir files).err = none →
      (performEmbedding deps wsID dir files).artifacts = [joinPath dir "vectors.ndjson"]) ∧
    ((performEmbedding deps wsID dir files).err ≠ none →
      (performEmbedding deps wsID dir files).artifacts = []) := by
  unfold performEmbedding
  split
  · exact ⟨fun h => Option.noConfusion h, fun _ => rfl⟩
  · split
    · exact ⟨fun h => Option.noConfusion h, fun _ => rfl⟩
    · split
      · exact ⟨fun h => Option.noConfusion h, fun _ => rfl⟩
      · split
        · exact ⟨fun h => Option.noConfusion h, fun _ => rfl⟩
        · split
          · exact ⟨fun h => Option.noConfusion h, fun _ => rfl⟩
          · exact ⟨fun _ => rfl, fun h => absurd rfl h⟩

theorem joinPath_ne (dir : Bytes) (n₁ n₂ : String) (h : n₁.toList ≠ n₂.toList) :
    joinPath dir n₁ ≠ joinPath dir n₂ := by
  intro hcon
  unfold joinPath at hcon
  have h1 := List.append_cancel_left hcon
  rw [List.cons.injEq] at h1
  exact h h1.2

/-- C9: an invalid request — workspace root or id empty after trimming,
or a root that does not stat to an existing directory — makes each of
Scan, Embed and All return a validation error before any Run is
allocated: no report is built, no run id assigned and no artifact
directory created. -/
theorem validation_blocks_run (deps : IndexerDeps) (req : WorkspaceRequest)
    (h : goTrimSpace req.WorkspaceRoot = [] ∨ goTrimSpace req.WorkspaceID = [] ∨
      deps.fs.statOk = false ∨ deps.fs.isDir = false) :
    (∃ e, validateWorkspaceRequest deps.fs req = some e) ∧
    ∀ op ∈ [ScanOp deps req, EmbedOp deps req, AllOp deps req],
      op.report = none ∧ op.runAllocated = false ∧
      ∃ e, op.err = some (IndexErr.validation e) := by
  have hval : ∃ e, validateWorkspaceRequest deps.fs req = some e := by
    unfold validateWorkspaceRequest
    split_ifs with h1 h2 h3 h4
    · exact ⟨_, rfl⟩
    · exact ⟨_, rfl⟩
    · exact ⟨_, rfl⟩
    · exact ⟨_, rfl⟩
    · exfalso
      rcases h with h | h | h | h
      · exact h1 h
      · exact h2 h
      · rw [h] at h3
        exact h3 rfl
      · rw [h] at h4
        exact h4 rfl
  obtain ⟨e, he⟩ := hval
  refine ⟨⟨e, he⟩, ?_⟩
  intro op hop
  have hops : op = ScanOp deps req ∨ op = EmbedOp deps req ∨ op = AllOp deps req := by
    simpa using hop
  rcases hops with rfl | rfl | rfl
  · unfold ScanOp
    rw [he]
    exact ⟨rfl, rfl, e, rfl⟩
  · unfold EmbedOp
    rw [he]
    exact ⟨rfl, rfl, e, rfl⟩
  · unfold AllOp
    rw [he]
    exact ⟨rfl, rfl, e, rfl⟩

/-- C2: under one Run, `All` runs Scan and then Embed; a Scan failure
yields a `fail` report carrying the scan error in its risks, exactly the
scan stage's result artifacts, and Embed never runs; an Embed failure
after a successful Scan yields a `fail` report carrying the embedding
error in its risks and both stages' artifacts — `files.ndjson` and
`dirs.ndjson` but no `vectors.ndjson`. -/
theorem all_partial_failure (deps : IndexerDeps) (req : WorkspaceRequest)
    (hval : validateWorkspaceRequest deps.fs req = none)
    (hrun : deps.runCreateOk = true) :
    (∀ e, (performScan deps.scanDeps (runForStep deps req StepAll).ArtifactDir).err = some e →
      ∃ r, (AllOp deps req).report = some r ∧ r.Acceptance = "fail" ∧
        Risk.scanFailed e ∈ r.Risks ∧
        r.ArtifactPaths
          = (performScan deps.scanDeps (runForStep deps req StepAll).ArtifactDir).artifacts ∧
        Stage.embed ∉ (AllOp deps req).stages ∧
        (AllOp deps req).err = some (IndexErr.scan e)) ∧
    (∀ e, (performScan deps.scanDeps (runForStep deps req StepAll).ArtifactDir).err = none →
      (performEmbedding deps.embedDeps req.WorkspaceID
        (runForStep deps req StepAll).ArtifactDir deps.embedFiles).err = some e →
      ∃ r, (AllOp deps req).report = some r ∧ r.Acceptance = "fail" ∧
        Risk.embedFailed e ∈ r.Risks ∧
        r.ArtifactPaths
          = [joinPath (runForStep deps req StepAll).ArtifactDir "files.ndjson",
             joinPath (runForStep deps req StepAll).ArtifactDir "dirs.ndjson"] ∧
        joinPath (runForStep deps req StepAll).ArtifactDir "vectors.ndjson"
          ∉ r.ArtifactPaths ∧
        (AllOp deps req).err = some (IndexErr.embed e)) := by
  constructor
  · intro e hse
    unfold AllOp
    rw [hval, hrun, hse]
    refine ⟨_, rfl, rfl, by simp [mkReport], by simp [mkReport], ?_, rfl⟩
    show Stage.embed ∉ [Stage.scan]
    decide
  · intro e hse hem
    have hsa := (performScan_artifacts deps.scanDeps
      (runForStep deps req StepAll).ArtifactDir).1 hse
    have hea := (performEmbedding_artifacts deps.embedDeps req.WorkspaceID
      (runForStep deps req StepAll).ArtifactDir deps.embedFiles).2 (by rw [hem]; simp)
    unfold AllOp
    rw [hval, hrun, hse, hem]
    refine ⟨_, rfl, rfl, by simp [mkReport], ?_, ?_, rfl⟩
    · show [] ++ ((performScan deps.scanDeps
          (runForStep deps req StepAll).ArtifactDir).artifacts ++
        (performEmbedding deps.embedDeps req.WorkspaceID
          (runForStep deps req StepAll).ArtifactDir deps.embedFiles).artifacts) = _
      rw [hsa, hea]
      simp
    · show joinPath (runForStep deps req StepAll).ArtifactDir "vectors.ndjson"
        ∉ [] ++ ((performScan deps.scanDeps
            (runForStep deps req StepAll).ArtifactDir).artifacts ++
          (performEmbedding deps.embedDeps req.WorkspaceID
            (runForStep deps req StepAll).ArtifactDir deps.embedFiles).artifacts)
      rw [hsa, hea]
      intro hcon
      simp only [List.nil_append, List.append_nil, List.mem_cons, List.not_mem_nil,
        or_false] at hcon
      rcases hcon with hcon | hcon
      · exact joinPath_ne _ "vectors.ndjson" "files.ndjson" (by decide) hcon
      · exact joinPath_ne _ "vectors.ndjson" "dirs.ndjson" (by decide) hcon

/-- C8 amended: whenever a stage fails after a Run has been allocated,
the operation returns a `fail` report with the error recorded in Risks
and a non-nil error; the report's ArtifactPaths lists exactly the
artifacts of previously completed stages (empty when the failing stage is
the first; Scan's two artifacts when All's embed stage fails), while
artifacts produced inside the failing stage are registered with the Run
but omitted from the report. -/
theorem failure_reporting (deps : IndexerDeps) (req : WorkspaceRequest)
    (hval : validateWorkspaceRequest deps.fs req = none)
    (hrun : deps.runCreateOk = true) :
    (∀ e, (performScan deps.scanDeps (runForStep deps req StepScan).ArtifactDir).err
        = some e →
      ∃ r, (ScanOp deps req).report = some r ∧ r.Acceptance = "fail" ∧
        Risk.scanErr e ∈ r.Risks ∧ (ScanOp deps req).err = some (IndexErr.scan e) ∧
        r.ArtifactPaths = []) ∧
    (∀ e, (performEmbedding deps.embedDeps req.WorkspaceID
        (runForStep deps req StepEmbed).ArtifactDir deps.embedFiles).err = some e →
      ∃ r, (EmbedOp deps req).report = some r ∧ r.Acceptance = "fail" ∧
        Risk.embedErr e ∈ r.Risks ∧ (EmbedOp deps req).err = some (IndexErr.embed e) ∧
        r.ArtifactPaths = []) ∧
    (∀ e, (performScan deps.scanDeps (runForStep deps req StepAll).ArtifactDir).err
        = some e →
      ∃ r, (AllOp deps req).report = some r ∧ r.Acceptance = "fail" ∧
        Risk.scanFailed e ∈ r.Risks ∧ (AllOp deps req).err = some (IndexErr.scan e) ∧
        r.ArtifactPaths = []) ∧
    (∀ e, (performScan deps.scanDeps (runForStep deps req StepAll).ArtifactDir).err
        = none →
      (performEmbedding deps.embedDeps req.WorkspaceID
        (runForStep deps req StepAll).ArtifactDir deps.embedFiles).err = some e →
      ∃ r, (AllOp deps req).report = some r ∧ r.Acceptance = "fail" ∧
        Risk.embedFailed e ∈ r.Risks ∧ (AllOp deps req).err = some (IndexErr.embed e) ∧
        r.ArtifactPaths = (performScan deps.scanDeps
          (runForStep deps req StepAll).ArtifactDir).artifacts) := by
  refine ⟨?_, ?_, ?_, ?_⟩
  · intro e hse
    unfold ScanOp
    rw [hval, hrun, hse]
    exact ⟨_, rfl, rfl, by simp [mkReport], rfl, by simp [mkReport]⟩
  · intro e hem
    unfold EmbedOp
    rw [hval, hrun, hem]
    exact ⟨_, rfl, rfl, by simp [mkReport], rfl, by simp [mkReport]⟩
  · intro e hse
    have hsa := (performScan_artifacts deps.scanDeps
      (runForStep deps req StepAll).ArtifactDir).2 (by rw [hse]; simp)
    unfold AllOp
    rw [hval, hrun, hse]
    refine ⟨_, rfl, rfl, by simp [mkReport], rfl, ?_⟩
    show [] ++ (performScan deps.scanDeps
        (runForStep deps req StepAll).ArtifactDir).artifacts = []
    rw [hsa]
    rfl
  · intro e hse hem
    have hea := (performEmbedding_artifacts deps.embedDeps req.WorkspaceID
      (runForStep deps req StepAll).ArtifactDir deps.embedFiles).2 (by rw [hem]; simp)
    unfold AllOp
    rw [hval, hrun, hse, hem]
    refine ⟨_, rfl, rfl, by simp [mkReport], rfl, ?_⟩
    show [] ++ ((performScan deps.scanDeps
        (runForStep deps req StepAll).ArtifactDir).artifacts ++
      (performEmbedding deps.embedDeps req.WorkspaceID
        (runForStep deps req StepAll).ArtifactDir deps.embedFiles).artifacts) = _
    rw [hea]
    simp

/-! Helpers: Concrete instances for counterexamples and witnesses -/

/-- Scan outcomes in which everything succeeds except the `dirs.ndjson`
write. -/
def scanDepsDirsFail : ScanDeps :=
  { mergeOk := true, walkResult := .ok ([], []), storeOk := true,
    writeFilesOk := true, writeDirsOk := false }

/-- Scan outcomes in which everything succeeds. -/
def scanDepsOkW : ScanDeps :=
  { mergeOk := true, walkResult := .ok ([], []), storeOk := true,
    writeFilesOk := true, writeDirsOk := true }

/-- Embed outcomes whose executor always answers with zero rows, forcing
a count mismatch on any non-empty batch. -/
def embedDepsMismatchW : EmbedDeps :=
  { encode := charEncoder, hash := fun b => b, respond := fun _ => .ok [],
    storeOk := true, writeVectorsOk := true }

/-- Coordinator dependencies for the C8 counterexample: a valid request
whose scan fails while writing `dirs.ndjson`. -/
def depsC8 : IndexerDeps :=
  { fs := { statOk := true, isDir := true }, blake3 := blakeW, now := timeW,
    artifactRoot := ['a'], runCreateOk := true, scanDeps := scanDepsDirsFail,
    embedDeps := embedDepsMismatchW, embedFiles := [] }

/-- Coordinator dependencies for the C2 witness: scan succeeds and the
embed stage fails with a count mismatch. -/
def depsC2 : IndexerDeps :=
  { fs := { statOk := true, isDir := true }, blake3 := blakeW, now := timeW,
    artifactRoot := ['a'], runCreateOk := true, scanDeps := scanDepsOkW,
    embedDeps := embedDepsMismatchW, embedFiles := [fileW] }

/-- A valid concrete request with a caller-supplied run id. -/
def reqC8 : WorkspaceRequest :=
  { WorkspaceRoot := ['r'], WorkspaceID := ['w'], RunID := ['R'] }

/-- A request whose workspace root is empty. -/
def reqBadW : WorkspaceRequest :=
  { WorkspaceRoot := [], WorkspaceID := ['w'], RunID := [] }

/-- C8 counterexample: with a valid request, the scan stage writes and
registers `files.ndjson` with the Run and then fails writing
`dirs.ndjson`, yet the failing report's ArtifactPaths is empty — the
artifact produced before the failure point does not appear in the report,
refuting the claim's example. -/
theorem scan_failure_drops_partial_artifacts :
    (performScan depsC8.scanDeps (runForStep depsC8 reqC8 StepScan).ArtifactDir).runArtifacts
      = [joinPath (runForStep depsC8 reqC8 StepScan).ArtifactDir "files.ndjson"] ∧
    ((ScanOp depsC8 reqC8).report.map RunReport.Acceptance) = some "fail" ∧
    ((ScanOp depsC8 reqC8).report.map RunReport.ArtifactPaths) = some [] :=
  ⟨rfl, rfl, rfl⟩

/-- Witness for C8's amended claim at the concrete failing scan. -/
theorem failure_reporting_witness :
    ∃ r, (ScanOp depsC8 reqC8).report = some r ∧ r.Acceptance = "fail" ∧
      Risk.scanErr (ScanErr.writeArtifact "dirs.ndjson") ∈ r.Risks ∧
      (ScanOp depsC8 reqC8).err
        = some (IndexErr.scan (ScanErr.writeArtifact "dirs.ndjson")) ∧
      r.ArtifactPaths = [] :=
  (failure_reporting depsC8 reqC8 rfl rfl).1 (ScanErr.writeArtifact "dirs.ndjson") rfl

/-- Witness for C2 at a concrete run whose scan succeeds and whose embed
stage fails with a count mismatch. -/
theorem all_partial_failure_witness :
    ∃ r, (AllOp depsC2 reqC8).report = some r ∧ r.Acceptance = "fail" ∧
      Risk.embedFailed (EmbedErr.countMismatch 1 0) ∈ r.Risks ∧
      r.ArtifactPaths
        = [joinPath (runForStep depsC2 reqC8 StepAll).ArtifactDir "files.ndjson",
           joinPath (runForStep depsC2 reqC8 StepAll).ArtifactDir "dirs.ndjson"] ∧
      joinPath (runForStep depsC2 reqC8 StepAll).ArtifactDir "vectors.ndjson"
        ∉ r.ArtifactPaths ∧
      (AllOp depsC2 reqC8).err = some (IndexErr.embed (EmbedErr.countMismatch 1 0)) :=
  (all_partial_failure depsC2 reqC8 rfl rfl).2 (EmbedErr.countMismatch 1 0) rfl rfl

/-- Witness for C9 at a request with an empty workspace root. -/
theorem validation_blocks_run_witness :
    ∃ e, validateWorkspaceRequest depsC8.fs reqBadW = some e :=
  (validation_blocks_run depsC8 reqBadW (Or.inl rfl)).1

end Chaosmith
